import Mathlib

/-!
Verification of the virial.py pipeline: a shallow embedding of the
radial-distribution-function loader, range slicing, the fit step, the two
curve-splicing modes, and the second-virial-coefficient integrator, together
with theorems settling the specification claims about them.

Numeric values are modelled exactly: real numbers for the parts that use
transcendental functions (log, exp, pi), rational numbers for the purely
arithmetic slicing/splicing parts, so that concrete instances can be decided.
-/

/-- Python builtin min over a list (used as min(r) in VirialCoefficient,
virial.py line 39); returns the type's default element on the empty list,
on which Python would instead raise. -/
def listMin {α : Type} [LinearOrder α] [Inhabited α] : List α → α
  | [] => default
  | x :: xs => xs.foldl min x

/-- Python builtin max over a list (used as max(r) in VirialCoefficient,
virial.py line 43); returns the type's default element on the empty list. -/
def listMax {α : Type} [LinearOrder α] [Inhabited α] : List α → α
  | [] => default
  | x :: xs => xs.foldl max x

/-- Trapezoidal quadrature np.trapz(y, x) (virial.py line 40): the sum of
(x1 - x0) * (y0 + y1) / 2 over consecutive sample pairs; zero when fewer
than two samples remain. -/
noncomputable def trapz : List ℝ → List ℝ → ℝ
  | y0 :: y1 :: ys, x0 :: x1 :: xs => (x1 - x0) * (y0 + y1) / 2 + trapz (y1 :: ys) (x1 :: xs)
  | _, _ => 0

/-- Integrand -2*pi*(np.exp(-w)-1)*r**2 of the B2 integral
(virial.py line 40), evaluated at one sample (w_i, r_i). -/
noncomputable def mayer (wi ri : ℝ) : ℝ :=
  -2 * Real.pi * (Real.exp (-wi) - 1) * ri ^ 2

/-- Avogadro constant scipy.constants.N_A used on virial.py line 45. -/
noncomputable def N_A : ℝ := 6.02214076e23

/-- Result record of VirialCoefficient: the dictionary b2 of virial.py
lines 38-45. The optional dictionary key mlmol/g2 is modelled as an
Option-valued field mlmolg2 (none when the key is absent). -/
structure B2Result where
  hs : ℝ
  tot : ℝ
  reduced : ℝ
  hsrange : ℝ × ℝ
  rrange : ℝ × ℝ
  mlmolg2 : Option ℝ

/-- Embedding of VirialCoefficient(r, w, mw) (virial.py lines 37-46):
hard-sphere term 2*pi/3*min(r)**3, total term adding the trapezoidal
integral of the mayer integrand, their ratio, the two reported ranges, and
the optional molar-mass unit conversion guarded by mw[0]>0 and mw[1]>0. -/
noncomputable def VirialCoefficient (r w : List ℝ) (mw : ℝ × ℝ) : B2Result :=
  let hs : ℝ := 2 * Real.pi / 3 * listMin r ^ 3
  let tot : ℝ := hs + trapz (List.zipWith mayer w r) r
  { hs := hs
    tot := tot
    reduced := tot / hs
    hsrange := (0, listMin r)
    rrange := (0, listMax r)
    mlmolg2 :=
      if 0 < mw.1 ∧ 0 < mw.2 then some (tot * N_A * 1e-24 / mw.1 / mw.2) else none }

/-- In-memory container built by RadialDistributionFunction.__init__
(virial.py lines 18-27): the two data columns and the derived w column. -/
structure RDF where
  r : List ℝ
  g : List ℝ
  w : List ℝ

/-- Embedding of RadialDistributionFunction.__init__ (virial.py lines
19-27). File existence and numeric parsing are abstracted away: the input
is the already-parsed numeric table d, one inner list per row. With fewer
than two rows np.loadtxt squeezes the result to a one-dimensional array,
so the shape check d.shape[1]==2 itself raises an uncaught IndexError:
that crash is modelled as the first error outcome. On two or more rows
the shape check becomes the check that every row has two entries, and the
exit() call on its failure becomes the second error outcome. On the
success path the columns are stored and w = -np.log(g) is computed
elementwise with no check on the sign of g, exactly as in the source. -/
noncomputable def loadRDF (d : List (List ℝ)) : Except String RDF :=
  if d.length < 2 then
    Except.error ("IndexError: tuple index out of range")
  else if d.all (fun row => row.length == 2) then
    Except.ok
      { r := d.map (fun row => row.getD 0 0)
        g := d.map (fun row => row.getD 1 0)
        w := d.map (fun row => -Real.log (row.getD 1 0)) }
  else
    Except.error ("Error loading g of r -- file does not exist or wrong format.")

/-- Embedding of RadialDistributionFunction.slice (virial.py lines 29-31)
over exact rationals: the boolean mask (r>=rmin)&(r<=rmax) applied to the
paired arrays r and g. -/
def sliceRDF (rs gs : List ℚ) (rmin rmax : ℚ) : List ℚ × List ℚ :=
  (((rs.zip gs).filter (fun p => decide (rmin ≤ p.1) && decide (p.1 ≤ rmax))).map Prod.fst,
   ((rs.zip gs).filter (fun p => decide (rmin ≤ p.1) && decide (p.1 ≤ rmax))).map Prod.snd)

/-- Modelled external function np.arange(start, stop, step) as used on
virial.py line 133, for the positive-step case (the only one the program
exercises): the values start + k*step for k < ceil((stop-start)/step), so
the stop value itself is excluded. -/
def arange (start stop step : ℚ) : List ℚ :=
  if 0 < step then
    (List.range (Int.toNat (Int.ceil ((stop - start) / step)))).map
      (fun (k : ℕ) => start + (k : ℚ) * step)
  else []

/-- Embedding of the full-splice branch of the main program (virial.py
lines 129-135): dr is the spacing of the first two measured r values, the
measured w is shifted by a[-1] (a.getLastD 0), the shift entry of a is set
to zero (a.dropLast ++ [0]), the head is the mask rdf.r <= rmin applied to
the paired shifted data, and the tail is the model callable pot evaluated
on np.arange(rmin, 4*rmax, dr). Returns the concatenated (r, w) arrays. -/
def splice (rs ws a : List ℚ) (pot : ℚ → List ℚ → ℚ) (rmin rmax : ℚ) : List ℚ × List ℚ :=
  let dr := rs.getD 1 0 - rs.getD 0 0
  let wsh := ws.map (fun x => x - a.getLastD 0)
  let a2 := a.dropLast ++ [0]
  let headPairs := (rs.zip wsh).filter (fun p => decide (p.1 ≤ rmin))
  let rtail := arange rmin (4 * rmax) dr
  (headPairs.map Prod.fst ++ rtail,
   headPairs.map Prod.snd ++ rtail.map (fun x => pot x a2))

/-- Embedding of the shift-only branch of the main program (virial.py
lines 126-127): r is kept whole and w is shifted by a[-1] elementwise. -/
def shiftOnly (rs ws a : List ℚ) : List ℚ × List ℚ :=
  (rs, ws.map (fun x => x - a.getLastD 0))

/-- Registry entry zero of potentiallist (virial.py line 87): the
expression r*0 + a[0] evaluated at a scalar r. -/
def potZero (r : ℚ) (a : List ℚ) : ℚ := r * 0 + a.getD 0 0

/-- Error vocabulary for the fit step: the two clean error kinds named by
the specification, plus the error the external optimizer itself raises. -/
inductive FitError where
  | insufficientData
  | fitConvergence
  | improperInput
deriving DecidableEq

/-- Modelled external interface of scipy.optimize.curve_fit as called on
virial.py line 116: when the number of data points is smaller than the
number of fit parameters the underlying MINPACK wrapper raises
TypeError (Improper input: N must not exceed M). The success value is
abstracted to Unit since only the error behaviour is at issue. -/
def curveFitOutcome (npts nparams : ℕ) : Except FitError Unit :=
  if npts < nparams then Except.error FitError.improperInput else Except.ok ()

/-- Embedding of the fit step of the main program (virial.py lines
115-116): slice out the fit range, then call curve_fit bare, with no point
count guard and no custom error types anywhere in the program. -/
def fitStepOutcome (rs gs : List ℚ) (rmin rmax : ℚ) (guess : List ℚ) : Except FitError Unit :=
  curveFitOutcome (sliceRDF rs gs rmin rmax).1.length guess.length

/-! Helper lemmas about the list primitives of the embedding. -/

lemma le_foldl_max {α : Type} [LinearOrder α] (l : List α) (b : α) :
    b ≤ l.foldl max b := by
  induction l generalizing b with
  | nil => exact le_refl b
  | cons a t ih => exact le_trans (le_max_left b a) (ih (max b a))

lemma le_foldl_max_of_mem {α : Type} [LinearOrder α] {x : α} {l : List α}
    (h : x ∈ l) (b : α) : x ≤ l.foldl max b := by
  induction l generalizing b with
  | nil => cases h
  | cons a t ih =>
    rcases List.mem_cons.1 h with h1 | h2
    · subst h1
      exact le_trans (le_max_right b x) (le_foldl_max t (max b x))
    · exact ih h2 (max b a)

lemma le_listMax_of_mem {α : Type} [LinearOrder α] [Inhabited α] {x : α} {l : List α}
    (h : x ∈ l) : x ≤ listMax l := by
  cases l with
  | nil => cases h
  | cons a t =>
    rcases List.mem_cons.1 h with h1 | h2
    · subst h1
      exact le_foldl_max t x
    · exact le_foldl_max_of_mem h2 a

lemma foldl_min_le {α : Type} [LinearOrder α] (l : List α) (b : α) :
    l.foldl min b ≤ b := by
  induction l generalizing b with
  | nil => exact le_refl b
  | cons a t ih => exact le_trans (ih (min b a)) (min_le_left b a)

lemma foldl_min_le_of_mem {α : Type} [LinearOrder α] {x : α} {l : List α}
    (h : x ∈ l) (b : α) : l.foldl min b ≤ x := by
  induction l generalizing b with
  | nil => cases h
  | cons a t ih =>
    rcases List.mem_cons.1 h with h1 | h2
    · subst h1
      exact le_trans (foldl_min_le t (min b x)) (min_le_right b x)
    · exact ih h2 (min b a)

lemma listMin_le_of_mem {α : Type} [LinearOrder α] [Inhabited α] {x : α} {l : List α}
    (h : x ∈ l) : listMin l ≤ x := by
  cases l with
  | nil => cases h
  | cons a t =>
    rcases List.mem_cons.1 h with h1 | h2
    · subst h1
      exact foldl_min_le t x
    · exact foldl_min_le_of_mem h2 a

lemma map_fst_zip_sublist {α β : Type} (l1 : List α) (l2 : List β) :
    ((l1.zip l2).map Prod.fst).Sublist l1 := by
  induction l1 generalizing l2 with
  | nil => simp
  | cons a t ih =>
    cases l2 with
    | nil => simp
    | cons b s =>
      simp only [List.zip_cons_cons, List.map_cons]
      exact List.Sublist.cons₂ a (ih s)

lemma zip_self_map {α β : Type} (l : List α) (f : α → β) :
    l.zip (l.map f) = l.map (fun x => (x, f x)) := by
  induction l with
  | nil => rfl
  | cons a t ih => simp [List.zip_cons_cons, ih]

/-! Helper lemmas about arange. -/

lemma arange_eval (start stop step : ℚ) (n : ℕ) (h1 : 0 < step)
    (h2 : (stop - start) / step = (n : ℚ)) :
    arange start stop step = (List.range n).map (fun (k : ℕ) => start + (k : ℚ) * step) := by
  unfold arange
  rw [if_pos h1, h2]
  norm_num

lemma arange_pairwise_le (start stop step : ℚ) (h : 0 ≤ step) :
    (arange start stop step).Pairwise (fun x y => x ≤ y) := by
  unfold arange
  by_cases h1 : 0 < step
  · rw [if_pos h1]
    refine List.pairwise_map.2 ?_
    refine (List.pairwise_lt_range _).imp ?_
    intro a b hab
    have hab' : (a : ℚ) ≤ (b : ℚ) := by exact_mod_cast le_of_lt hab
    have := mul_le_mul_of_nonneg_right hab' h
    linarith
  · rw [if_neg h1]
    exact List.Pairwise.nil

lemma arange_mem_ge {start stop step : ℚ} (h : 0 ≤ step) :
    ∀ x ∈ arange start stop step, start ≤ x := by
  intro x hx
  unfold arange at hx
  by_cases h1 : 0 < step
  · rw [if_pos h1] at hx
    rcases List.mem_map.1 hx with ⟨k, _, hk⟩
    subst hk
    have hk0 : (0 : ℚ) ≤ (k : ℚ) := Nat.cast_nonneg k
    nlinarith
  · rw [if_neg h1] at hx
    cases hx

lemma range_map_last (start step : ℚ) (N : ℕ) (h1 : 1 ≤ N) :
    ∃ x ∈ (List.range N).map (fun (k : ℕ) => start + (k : ℚ) * step),
      start + ((N : ℚ) - 1) * step ≤ x := by
  refine ⟨start + ((N - 1 : ℕ) : ℚ) * step,
    List.mem_map.2 ⟨N - 1, List.mem_range.2 (by omega), rfl⟩, ?_⟩
  have hcast : ((N - 1 : ℕ) : ℚ) = (N : ℚ) - 1 := by
    rw [Nat.cast_sub h1, Nat.cast_one]
  rw [hcast]

lemma arange_mem_last {start stop step : ℚ} (h1 : 0 < step) (h2 : start < stop) :
    ∃ x ∈ arange start stop step, stop - step ≤ x := by
  have hq : (0 : ℚ) < (stop - start) / step := div_pos (by linarith) h1
  have hc : 0 < Int.ceil ((stop - start) / step) := Int.ceil_pos.2 hq
  have hn1 : 1 ≤ Int.toNat (Int.ceil ((stop - start) / step)) := by omega
  have h0 : ((Int.toNat (Int.ceil ((stop - start) / step)) : ℕ) : ℤ)
      = Int.ceil ((stop - start) / step) := Int.toNat_of_nonneg (le_of_lt hc)
  have hle : (stop - start) / step
      ≤ ((Int.toNat (Int.ceil ((stop - start) / step)) : ℕ) : ℚ) := by
    calc (stop - start) / step
        ≤ ((Int.ceil ((stop - start) / step) : ℤ) : ℚ) := Int.le_ceil _
      _ = ((Int.toNat (Int.ceil ((stop - start) / step)) : ℕ) : ℚ) := by
          exact_mod_cast congrArg (fun z : ℤ => (z : ℚ)) h0.symm
  have hbound : stop
      ≤ start + ((Int.toNat (Int.ceil ((stop - start) / step)) : ℕ) : ℚ) * step := by
    have := (div_le_iff₀ h1).1 hle
    linarith
  obtain ⟨x, hx1, hx2⟩ := range_map_last start step _ hn1
  refine ⟨x, ?_, ?_⟩
  · unfold arange
    rw [if_pos h1]
    exact hx1
  · nlinarith

/-! Helper lemmas about the integrand and trapezoidal rule. -/

lemma trapz_eq_zero (ys xs : List ℝ) (h : ∀ y ∈ ys, y = 0) : trapz ys xs = 0 := by
  induction ys generalizing xs with
  | nil => cases xs <;> rfl
  | cons y0 t ih =>
    cases t with
    | nil => cases xs with
      | nil => rfl
      | cons x0 xs' => cases xs' <;> rfl
    | cons y1 t' =>
      cases xs with
      | nil => rfl
      | cons x0 xs' =>
        cases xs' with
        | nil => rfl
        | cons x1 xs'' =>
          have hy0 : y0 = 0 := h y0 (by simp)
          have hy1 : y1 = 0 := h y1 (by simp)
          have hrec : trapz (y1 :: t') (x1 :: xs'') = 0 :=
            ih (x1 :: xs'') (fun y hy => h y (List.mem_cons_of_mem y0 hy))
          rw [trapz, hrec, hy0, hy1]
          ring

lemma zipWith_mayer_zero (w : List ℝ) :
    ∀ (r : List ℝ), (∀ x ∈ w, x = 0) → ∀ y ∈ List.zipWith mayer w r, y = 0 := by
  induction w with
  | nil => intro r h y hy; simp at hy
  | cons a t ih =>
    intro r h y hy
    cases r with
    | nil => simp at hy
    | cons b s =>
      rw [List.zipWith_cons_cons] at hy
      rcases List.mem_cons.1 hy with h1 | h2
      · have ha : a = 0 := h a (List.mem_cons_self a t)
        rw [h1, ha]
        simp [mayer]
      · exact ih s (fun x hx => h x (List.mem_cons_of_mem a hx)) y h2

/-! Theorems for the claims about the virial integrator and the loader. -/

/-- C1: for every non-empty combined curve (r, w) and molar-mass pair,
VirialCoefficient returns a record in which B2_hardsphere equals 2*pi/3
times the cube of the smallest r, B2_total equals B2_hardsphere plus the
trapezoidal-rule integral of -2*pi*(exp(-w)-1)*r^2 over the curve, and
B2_reduced equals B2_total divided by B2_hardsphere. -/
theorem claim_C1_integrator (r w : List ℝ) (mw : ℝ × ℝ) (h : r ≠ []) :
    (VirialCoefficient r w mw).hs = 2 * Real.pi / 3 * listMin r ^ 3 ∧
    (VirialCoefficient r w mw).tot
      = (VirialCoefficient r w mw).hs + trapz (List.zipWith mayer w r) r ∧
    (VirialCoefficient r w mw).reduced
      = (VirialCoefficient r w mw).tot / (VirialCoefficient r w mw).hs :=
  ⟨rfl, rfl, rfl⟩

/-- Witness for C1 at the concrete curve r = [1, 2], w = [0, 0], mw = (0, 0). -/
theorem claim_C1_witness :
    (VirialCoefficient [1, 2] [0, 0] (0, 0)).hs = 2 * Real.pi / 3 * listMin [1, 2] ^ 3 ∧
    (VirialCoefficient [1, 2] [0, 0] (0, 0)).tot
      = (VirialCoefficient [1, 2] [0, 0] (0, 0)).hs
        + trapz (List.zipWith mayer [0, 0] [1, 2]) [1, 2] ∧
    (VirialCoefficient [1, 2] [0, 0] (0, 0)).reduced
      = (VirialCoefficient [1, 2] [0, 0] (0, 0)).tot / (VirialCoefficient [1, 2] [0, 0] (0, 0)).hs :=
  claim_C1_integrator [1, 2] [0, 0] (0, 0) (by simp)

/-- C3 counterexample: the claim says the loader fails with a domain error
when some g value is nonpositive; on the well-formed two-row table
[[1, 0], [2, 1]] the g value 0 is nonpositive and yet the loader
succeeds. -/
theorem claim_C3_counterexample :
    ((0 : ℝ) ≤ 0) ∧ ∃ s, loadRDF [[1, 0], [2, 1]] = Except.ok s ∧ s.g = [0, 1] :=
  ⟨le_refl 0, _, rfl, rfl⟩

/-- C3 amended: on a well-formed two-column table with at least two rows
the loader always succeeds, storing the two columns and computing
w = -ln(g) elementwise; it performs no domain check on the sign of g, so
nonpositive g values are not rejected. (A table with fewer than two rows
never reaches this point: np.loadtxt squeezes it to one dimension and the
shape check itself crashes with IndexError.) -/
theorem claim_C3_amended (d : List (List ℝ)) (hrows : 2 ≤ d.length)
    (h : d.all (fun row => row.length == 2) = true) :
    ∃ s, loadRDF d = Except.ok s ∧
      s.r = d.map (fun row => row.getD 0 0) ∧
      s.g = d.map (fun row => row.getD 1 0) ∧
      s.w = s.g.map (fun x => -Real.log x) := by
  have hload : loadRDF d = Except.ok
      { r := d.map (fun row => row.getD 0 0)
        g := d.map (fun row => row.getD 1 0)
        w := d.map (fun row => -Real.log (row.getD 1 0)) } := by
    unfold loadRDF
    rw [if_neg (by omega), if_pos h]
  refine ⟨_, hload, rfl, rfl, ?_⟩
  show d.map (fun row => -Real.log (row.getD 1 0))
      = (d.map (fun row => row.getD 1 0)).map (fun x => -Real.log x)
  rw [List.map_map]
  rfl

/-- Witness for the amended C3 at the concrete table [[1, 1], [2, 1]]. -/
theorem claim_C3_witness :
    ∃ s, loadRDF [[1, 1], [2, 1]] = Except.ok s ∧
      s.r = ([[1, 1], [2, 1]] : List (List ℝ)).map (fun row => row.getD 0 0) ∧
      s.g = ([[1, 1], [2, 1]] : List (List ℝ)).map (fun row => row.getD 1 0) ∧
      s.w = s.g.map (fun x => -Real.log x) :=
  claim_C3_amended [[1, 1], [2, 1]] (by norm_num) rfl

/-- C8: the ml*mol/g2 field of the result is present if and only if both
molar masses are strictly positive, in which case it equals
B2_total * N_A * 1e-24 / mw1 / mw2; otherwise the field is absent. -/
theorem claim_C8_mlmolg2 (r w : List ℝ) (mw1 mw2 : ℝ) :
    ((0 < mw1 ∧ 0 < mw2) →
      (VirialCoefficient r w (mw1, mw2)).mlmolg2
        = some ((VirialCoefficient r w (mw1, mw2)).tot * N_A * 1e-24 / mw1 / mw2)) ∧
    (¬ (0 < mw1 ∧ 0 < mw2) → (VirialCoefficient r w (mw1, mw2)).mlmolg2 = none) := by
  constructor
  · intro h
    show (if 0 < (mw1, mw2).1 ∧ 0 < (mw1, mw2).2 then
        some ((2 * Real.pi / 3 * listMin r ^ 3 + trapz (List.zipWith mayer w r) r)
          * N_A * 1e-24 / (mw1, mw2).1 / (mw1, mw2).2)
      else none) = _
    rw [if_pos h]
    rfl
  · intro h
    show (if 0 < (mw1, mw2).1 ∧ 0 < (mw1, mw2).2 then
        some ((2 * Real.pi / 3 * listMin r ^ 3 + trapz (List.zipWith mayer w r) r)
          * N_A * 1e-24 / (mw1, mw2).1 / (mw1, mw2).2)
      else none) = none
    rw [if_neg h]

/-- Witness for C8 at r = [1], w = [0], molar masses (1, 2): the field is
present with the stated value. -/
theorem claim_C8_witness :
    (VirialCoefficient [1] [0] (1, 2)).mlmolg2
      = some ((VirialCoefficient [1] [0] (1, 2)).tot * N_A * 1e-24 / 1 / 2) :=
  (claim_C8_mlmolg2 [1] [0] 1 2).1 (by norm_num)

/-- C9: on a combined curve whose w values are all zero (ideal gas), with
positive minimum r, B2_total equals B2_hardsphere and B2_reduced equals 1. -/
theorem claim_C9_ideal_gas (r w : List ℝ) (mw : ℝ × ℝ) (hne : r ≠ [])
    (hmin : 0 < listMin r) (hw : ∀ x ∈ w, x = 0) :
    (VirialCoefficient r w mw).tot = (VirialCoefficient r w mw).hs ∧
    (VirialCoefficient r w mw).reduced = 1 := by
  have ht : trapz (List.zipWith mayer w r) r = 0 :=
    trapz_eq_zero _ _ (zipWith_mayer_zero w r hw)
  have hpi := Real.pi_pos
  have hhs : (0 : ℝ) < 2 * Real.pi / 3 * listMin r ^ 3 := by positivity
  constructor
  · show 2 * Real.pi / 3 * listMin r ^ 3 + trapz (List.zipWith mayer w r) r
      = 2 * Real.pi / 3 * listMin r ^ 3
    rw [ht, add_zero]
  · show (2 * Real.pi / 3 * listMin r ^ 3 + trapz (List.zipWith mayer w r) r)
      / (2 * Real.pi / 3 * listMin r ^ 3) = 1
    rw [ht, add_zero]
    exact div_self (ne_of_gt hhs)

/-- Witness for C9 at the concrete curve r = [1, 2], w = [0, 0]. -/
theorem claim_C9_witness :
    (VirialCoefficient [1, 2] [0, 0] (0, 0)).tot = (VirialCoefficient [1, 2] [0, 0] (0, 0)).hs ∧
    (VirialCoefficient [1, 2] [0, 0] (0, 0)).reduced = 1 :=
  claim_C9_ideal_gas [1, 2] [0, 0] (0, 0) (by simp)
    (by norm_num [listMin, List.foldl_cons, List.foldl_nil, lt_min_iff]) (by simp)

/-- C10: under the precondition min(r) > 0 the divisor B2_hardsphere is
nonzero, so the division defining B2_reduced is well defined:
B2_reduced * B2_hardsphere recovers B2_total. -/
theorem claim_C10_divisor (r w : List ℝ) (mw : ℝ × ℝ) (hne : r ≠ [])
    (hmin : 0 < listMin r) :
    (VirialCoefficient r w mw).hs ≠ 0 ∧
    (VirialCoefficient r w mw).reduced * (VirialCoefficient r w mw).hs
      = (VirialCoefficient r w mw).tot := by
  have hpi := Real.pi_pos
  have hhs : (0 : ℝ) < 2 * Real.pi / 3 * listMin r ^ 3 := by positivity
  refine ⟨ne_of_gt hhs, ?_⟩
  show (2 * Real.pi / 3 * listMin r ^ 3 + trapz (List.zipWith mayer w r) r)
      / (2 * Real.pi / 3 * listMin r ^ 3) * (2 * Real.pi / 3 * listMin r ^ 3)
      = 2 * Real.pi / 3 * listMin r ^ 3 + trapz (List.zipWith mayer w r) r
  exact div_mul_cancel₀ _ (ne_of_gt hhs)

/-- Witness for C10 at the concrete curve r = [1, 2], w = [0, 0]. -/
theorem claim_C10_witness :
    (VirialCoefficient [1, 2] [0, 0] (0, 0)).hs ≠ 0 ∧
    (VirialCoefficient [1, 2] [0, 0] (0, 0)).reduced * (VirialCoefficient [1, 2] [0, 0] (0, 0)).hs
      = (VirialCoefficient [1, 2] [0, 0] (0, 0)).tot :=
  claim_C10_divisor [1, 2] [0, 0] (0, 0) (by simp)
    (by norm_num [listMin, List.foldl_cons, List.foldl_nil, lt_min_iff])

/-! Theorems for the claims about slicing, fitting and splicing. -/

lemma zip_map_snd {α β γ : Type} (l1 : List α) (l2 : List β) (f : β → γ) :
    l1.zip (l2.map f) = (l1.zip l2).map (fun p => (p.1, f p.2)) := by
  induction l1 generalizing l2 with
  | nil => rfl
  | cons a t ih =>
    cases l2 with
    | nil => rfl
    | cons b s => simp only [List.map_cons, List.zip_cons_cons, ih]

lemma head_filter_lemma (Z : List (ℚ × ℚ)) (c rmin : ℚ) :
    ((Z.map (fun p => (p.1, p.2 - c))).filter (fun p => decide (p.1 ≤ rmin))).filter
        (fun p => decide (p.1 < rmin))
      = (Z.filter (fun p => decide (p.1 < rmin))).map (fun p => (p.1, p.2 - c)) := by
  induction Z with
  | nil => rfl
  | cons p t ih =>
    simp only [List.map_cons]
    by_cases h1 : p.1 < rmin
    · rw [List.filter_cons_of_pos (by simpa using le_of_lt h1),
        List.filter_cons_of_pos (by simpa using h1),
        List.filter_cons_of_pos (by simpa using h1), List.map_cons]
      rw [ih]
    · by_cases h2 : p.1 ≤ rmin
      · rw [List.filter_cons_of_pos (by simpa using h2),
          List.filter_cons_of_neg (by simpa using h1),
          List.filter_cons_of_neg (by simpa using h1)]
        exact ih
      · rw [List.filter_cons_of_neg (by simpa using h2),
          List.filter_cons_of_neg (by simpa using h1)]
        exact ih

/-- C7: slice returns exactly the points with rmin <= r <= rmax (both ends
inclusive), in their original relative order, and returns the empty
sequence when rmin exceeds the largest r or rmax is below the smallest r. -/
theorem claim_C7_slice (rs gs : List ℚ) (rmin rmax : ℚ) :
    ((sliceRDF rs gs rmin rmax).1.zip (sliceRDF rs gs rmin rmax).2
        = (rs.zip gs).filter (fun p => decide (rmin ≤ p.1) && decide (p.1 ≤ rmax))) ∧
    ((sliceRDF rs gs rmin rmax).1.Sublist rs) ∧
    (∀ x ∈ (sliceRDF rs gs rmin rmax).1, rmin ≤ x ∧ x ≤ rmax) ∧
    ((listMax rs < rmin ∨ rmax < listMin rs) → sliceRDF rs gs rmin rmax = ([], [])) := by
  refine ⟨?_, ?_, ?_, ?_⟩
  · show (((rs.zip gs).filter (fun p => decide (rmin ≤ p.1) && decide (p.1 ≤ rmax))).map
        Prod.fst).zip
      (((rs.zip gs).filter (fun p => decide (rmin ≤ p.1) && decide (p.1 ≤ rmax))).map Prod.snd)
      = (rs.zip gs).filter (fun p => decide (rmin ≤ p.1) && decide (p.1 ≤ rmax))
    rw [List.zip_map']
    simp
  · exact List.Sublist.trans (List.Sublist.map Prod.fst (List.filter_sublist _))
      (map_fst_zip_sublist rs gs)
  · intro x hx
    rcases List.mem_map.1 hx with ⟨p, hp, hpx⟩
    rcases List.mem_filter.1 hp with ⟨hpz, hcond⟩
    simp only [Bool.and_eq_true, decide_eq_true_eq] at hcond
    rw [← hpx]
    exact hcond
  · intro h
    have hnil : (rs.zip gs).filter (fun p => decide (rmin ≤ p.1) && decide (p.1 ≤ rmax)) = [] := by
      rw [List.filter_eq_nil_iff]
      intro p hp
      obtain ⟨x, y⟩ := p
      have hx : x ∈ rs := (List.of_mem_zip hp).1
      simp only [Bool.and_eq_true, decide_eq_true_eq, not_and_or, not_le]
      rcases h with h1 | h2
      · exact Or.inl (lt_of_le_of_lt (le_listMax_of_mem hx) h1)
      · exact Or.inr (lt_of_lt_of_le h2 (listMin_le_of_mem hx))
    unfold sliceRDF
    rw [hnil]
    rfl

/-- Witness for C7: at rs = [1, 2, 3], gs = [4, 5, 6] with fit range
[10, 20] lying above all r, the slice is empty. -/
theorem claim_C7_witness : sliceRDF [1, 2, 3] [4, 5, 6] 10 20 = ([], []) :=
  (claim_C7_slice [1, 2, 3] [4, 5, 6] 10 20).2.2.2
    (Or.inl (by norm_num [listMax, List.foldl_cons, List.foldl_nil, max_def]))

/-- C6: in shift-only mode the output keeps exactly the original r grid
and its w values equal the input w values minus the single constant
a[-1] at every point. -/
theorem claim_C6_shiftonly (rs ws a : List ℚ) (ha : a ≠ []) :
    (shiftOnly rs ws a).1 = rs ∧
    (shiftOnly rs ws a).2.length = ws.length ∧
    ∀ i : ℕ, (shiftOnly rs ws a).2[i]? = (ws[i]?).map (fun x => x - a.getLastD 0) :=
  ⟨rfl, List.length_map ws _, fun i => List.getElem?_map _ ws i⟩

/-- Witness for C6 at rs = [1, 2], ws = [5, 7], a = [3]. -/
theorem claim_C6_witness :
    (shiftOnly [1, 2] [5, 7] [3]).1 = [1, 2] ∧
    (shiftOnly [1, 2] [5, 7] [3]).2.length = ([5, 7] : List ℚ).length ∧
    ∀ i : ℕ, (shiftOnly [1, 2] [5, 7] [3]).2[i]?
      = ((([5, 7] : List ℚ)[i]?).map (fun x => x - ([3] : List ℚ).getLastD 0)) :=
  claim_C6_shiftonly [1, 2] [5, 7] [3] (by simp)

/-- C4 counterexample: with measured r = [1, 2, 3] and fit range [10, 20]
the slice is empty, and the fit step fails with the optimizer's own
improper-input error, which is neither InsufficientDataError nor
FitConvergenceError (no such error types exist in the program). -/
theorem claim_C4_counterexample :
    (sliceRDF [1, 2, 3] [1, 1, 1] 10 20).1.length = 0 ∧
    fitStepOutcome [1, 2, 3] [1, 1, 1] 10 20 [30, 0] = Except.error FitError.improperInput ∧
    FitError.improperInput ≠ FitError.insufficientData ∧
    FitError.improperInput ≠ FitError.fitConvergence := by
  have hs : sliceRDF [1, 2, 3] [1, 1, 1] 10 20 = ([], []) := by
    norm_num [sliceRDF, List.filter]
  refine ⟨by simp [hs], ?_, by simp, by simp⟩
  unfold fitStepOutcome
  rw [hs]
  rfl

/-- C4 amended: when the fit range selects fewer points than the length of
the initial guess (in particular none at all), the fit step fails with the
optimizer library's improper-input TypeError; the program defines neither
InsufficientDataError nor FitConvergenceError and performs no check of its
own. -/
theorem claim_C4_amended (rs gs : List ℚ) (rmin rmax : ℚ) (guess : List ℚ)
    (h : (sliceRDF rs gs rmin rmax).1.length < guess.length) :
    fitStepOutcome rs gs rmin rmax guess = Except.error FitError.improperInput := by
  unfold fitStepOutcome curveFitOutcome
  rw [if_pos h]

/-- Witness for the amended C4 at the empty-slice instance. -/
theorem claim_C4_witness :
    fitStepOutcome [1, 2, 3] [1, 1, 1] 10 20 [30, 0] = Except.error FitError.improperInput :=
  claim_C4_amended [1, 2, 3] [1, 1, 1] 10 20 [30, 0] (by norm_num [sliceRDF, List.filter])

/-- C2 counterexample: at measured r = [1, 2, 3], fit range [1, 2] (so
rmax is below the largest measured r, dr = 1), the full-splice r grid is
[1, 1, 2, 3, 4, 5, 6, 7]: np.arange excludes its stop value 4*rmax = 8, so
the maximum of the grid is 7 < 8 and the claimed bound max >= 4*rmax
fails. -/
theorem claim_C2_counterexample :
    ((2 : ℚ) < listMax [1, 2, 3]) ∧
    ¬ ((splice [1, 2, 3] [1, 1, 1] [3] potZero 1 2).1.Pairwise (fun x y => x ≤ y) ∧
       4 * 2 ≤ listMax (splice [1, 2, 3] [1, 1, 1] [3] potZero 1 2).1) := by
  constructor
  · norm_num [listMax, List.foldl_cons, List.foldl_nil, max_def]
  · have ha : arange 1 8 1 = [1, 2, 3, 4, 5, 6, 7] := by
      rw [arange_eval 1 8 1 7 (by norm_num) (by norm_num)]
      rw [show List.range 7 = [0, 1, 2, 3, 4, 5, 6] from rfl]
      norm_num
    have hs : (splice [1, 2, 3] [1, 1, 1] [3] potZero 1 2).1 = [1, 1, 2, 3, 4, 5, 6, 7] := by
      simp only [splice]
      norm_num [List.getD, List.filter, ha]
    rw [hs]
    rintro ⟨-, h⟩
    revert h
    norm_num [listMax, List.foldl_cons, List.foldl_nil, max_def]

/-- C2 amended: in full-splice mode, for strictly increasing measured data
with positive first spacing dr and rmin < 4*rmax, the output r grid is
monotonically non-decreasing and its maximum is at least 4*rmax - dr (the
synthetic tail grid excludes its stop value 4*rmax, so the stated bound
4*rmax itself is not reached). -/
theorem claim_C2_amended (rs ws a : List ℚ) (pot : ℚ → List ℚ → ℚ) (rmin rmax : ℚ)
    (hmono : rs.Pairwise (fun x y => x < y)) (hlen : 2 ≤ rs.length)
    (hdr : rs.getD 0 0 < rs.getD 1 0) (hmax : rmax < listMax rs)
    (hrange : rmin < 4 * rmax) :
    (splice rs ws a pot rmin rmax).1.Pairwise (fun x y => x ≤ y) ∧
    4 * rmax - (rs.getD 1 0 - rs.getD 0 0) ≤ listMax (splice rs ws a pot rmin rmax).1 := by
  have hdr' : 0 < rs.getD 1 0 - rs.getD 0 0 := sub_pos.2 hdr
  have hsp : (splice rs ws a pot rmin rmax).1
      = ((rs.zip (ws.map (fun x => x - a.getLastD 0))).filter
          (fun p => decide (p.1 ≤ rmin))).map Prod.fst
        ++ arange rmin (4 * rmax) (rs.getD 1 0 - rs.getD 0 0) := rfl
  rw [hsp]
  constructor
  · rw [List.pairwise_append]
    refine ⟨?_, arange_pairwise_le _ _ _ (le_of_lt hdr'), ?_⟩
    · have hsub : (((rs.zip (ws.map (fun x => x - a.getLastD 0))).filter
          (fun p => decide (p.1 ≤ rmin))).map Prod.fst).Sublist rs :=
        List.Sublist.trans (List.Sublist.map Prod.fst (List.filter_sublist _))
          (map_fst_zip_sublist _ _)
      exact (List.Pairwise.sublist hsub hmono).imp le_of_lt
    · intro x hx y hy
      rcases List.mem_map.1 hx with ⟨p, hp, hpx⟩
      rcases List.mem_filter.1 hp with ⟨hpz, hcond⟩
      have hple : p.1 ≤ rmin := by simpa using hcond
      have hy' : rmin ≤ y := arange_mem_ge (le_of_lt hdr') y hy
      rw [← hpx]
      exact le_trans hple hy'
  · obtain ⟨x, hx1, hx2⟩ := arange_mem_last hdr' hrange
    exact le_trans hx2 (le_listMax_of_mem (List.mem_append_right _ hx1))

/-- Witness for the amended C2 at measured r = [1, 2, 3], fit range [1, 2]:
the grid is non-decreasing and its maximum is at least 8 - 1. -/
theorem claim_C2_witness :
    (splice [1, 2, 3] [1, 1, 1] [3] potZero 1 2).1.Pairwise (fun x y => x ≤ y) ∧
    4 * 2 - (([1, 2, 3] : List ℚ).getD 1 0 - ([1, 2, 3] : List ℚ).getD 0 0)
      ≤ listMax (splice [1, 2, 3] [1, 1, 1] [3] potZero 1 2).1 :=
  claim_C2_amended [1, 2, 3] [1, 1, 1] [3] potZero 1 2
    (by norm_num [List.pairwise_cons]) (by norm_num)
    (by norm_num [List.getD]) (by norm_num [listMax, List.foldl_cons, List.foldl_nil, max_def])
    (by norm_num)

/-- C5 counterexample: at measured r = [1, 2], w = [5, 5], a = [3], model
zero, fit range [1, 2], the synthetic tail starts exactly at rmin = 1 with
the model value 0, so the output points with r <= rmin are [(1, 2), (1, 0)]
while the shifted measured points with r <= rmin are just [(1, 2)]: the
claim that every output point with r <= rmin reproduces shifted measured
data fails at the boundary point contributed by the tail. -/
theorem claim_C5_counterexample :
    ¬ ((((splice [1, 2] [5, 5] [3] potZero 1 2).1.zip
          (splice [1, 2] [5, 5] [3] potZero 1 2).2).filter
            (fun p => decide (p.1 ≤ (1 : ℚ))))
        = ((([1, 2] : List ℚ).zip ([5, 5] : List ℚ)).filter
            (fun p => decide (p.1 ≤ (1 : ℚ)))).map
            (fun p => (p.1, p.2 - ([3] : List ℚ).getLastD 0))) := by
  have ha : arange 1 8 1 = [1, 2, 3, 4, 5, 6, 7] := by
    rw [arange_eval 1 8 1 7 (by norm_num) (by norm_num)]
    rw [show List.range 7 = [0, 1, 2, 3, 4, 5, 6] from rfl]
    norm_num
  have h1 : (splice [1, 2] [5, 5] [3] potZero 1 2).1 = [1, 1, 2, 3, 4, 5, 6, 7] := by
    simp only [splice]
    norm_num [List.getD, List.filter, ha]
  have h2 : (splice [1, 2] [5, 5] [3] potZero 1 2).2 = [2, 0, 0, 0, 0, 0, 0, 0] := by
    simp only [splice]
    norm_num [List.getD, List.filter, ha, potZero]
  rw [h1, h2]
  norm_num [List.filter, List.zip]

/-- C5 amended: in full-splice mode with non-negative first spacing dr,
every output point with r strictly below rmin equals the corresponding
measured point with its w shifted by subtracting a[-1]; at r = rmin itself
the output may additionally contain the first synthetic tail point, which
carries the model value instead. -/
theorem claim_C5_amended (rs ws a : List ℚ) (pot : ℚ → List ℚ → ℚ) (rmin rmax : ℚ)
    (hdr : rs.getD 0 0 ≤ rs.getD 1 0) :
    ((splice rs ws a pot rmin rmax).1.zip (splice rs ws a pot rmin rmax).2).filter
        (fun p => decide (p.1 < rmin))
      = ((rs.zip ws).filter (fun p => decide (p.1 < rmin))).map
        (fun p => (p.1, p.2 - a.getLastD 0)) := by
  have hd0 : 0 ≤ rs.getD 1 0 - rs.getD 0 0 := sub_nonneg.2 hdr
  have h1 : (splice rs ws a pot rmin rmax).1
      = ((rs.zip (ws.map (fun x => x - a.getLastD 0))).filter
          (fun p => decide (p.1 ≤ rmin))).map Prod.fst
        ++ arange rmin (4 * rmax) (rs.getD 1 0 - rs.getD 0 0) := rfl
  have h2 : (splice rs ws a pot rmin rmax).2
      = ((rs.zip (ws.map (fun x => x - a.getLastD 0))).filter
          (fun p => decide (p.1 ≤ rmin))).map Prod.snd
        ++ (arange rmin (4 * rmax) (rs.getD 1 0 - rs.getD 0 0)).map
            (fun x => pot x (a.dropLast ++ [0])) := rfl
  rw [h1, h2]
  rw [List.zip_append (by simp)]
  rw [List.filter_append]
  have hzipH : (((rs.zip (ws.map (fun x => x - a.getLastD 0))).filter
        (fun p => decide (p.1 ≤ rmin))).map Prod.fst).zip
      (((rs.zip (ws.map (fun x => x - a.getLastD 0))).filter
        (fun p => decide (p.1 ≤ rmin))).map Prod.snd)
      = (rs.zip (ws.map (fun x => x - a.getLastD 0))).filter
          (fun p => decide (p.1 ≤ rmin)) := by
    rw [List.zip_map']
    simp
  rw [hzipH]
  rw [zip_self_map]
  have htail : ((arange rmin (4 * rmax) (rs.getD 1 0 - rs.getD 0 0)).map
      (fun x => (x, pot x (a.dropLast ++ [0])))).filter
        (fun p => decide (p.1 < rmin)) = [] := by
    rw [List.filter_eq_nil_iff]
    intro q hq
    rcases List.mem_map.1 hq with ⟨x, hx, hqx⟩
    have hge : rmin ≤ x := arange_mem_ge hd0 x hx
    rw [← hqx]
    simpa using not_lt.2 hge
  rw [htail, List.append_nil]
  rw [zip_map_snd]
  exact head_filter_lemma (rs.zip ws) (a.getLastD 0) rmin

/-- Witness for the amended C5 at measured r = [1, 2], w = [5, 5], a = [3],
model zero, fit range [2, 2]. -/
theorem claim_C5_witness :
    ((splice [1, 2] [5, 5] [3] potZero 2 2).1.zip
        (splice [1, 2] [5, 5] [3] potZero 2 2).2).filter
        (fun p => decide (p.1 < (2 : ℚ)))
      = ((([1, 2] : List ℚ).zip ([5, 5] : List ℚ)).filter
          (fun p => decide (p.1 < (2 : ℚ)))).map
          (fun p => (p.1, p.2 - ([3] : List ℚ).getLastD 0)) :=
  claim_C5_amended [1, 2] [5, 5] [3] potZero 2 2 (by norm_num [List.getD])
